import Mathlib

/-!
Shallow embedding of the artifact test-result parsing and aggregation engine
(`src/core/artifact_processor.py`) of the edge-rtos-report-generator repository.

Python strings are modelled as `List Char`; Python `int` as `Int`; Python
`float` as `ℚ` (the parsers only read decimal numerals and add them);
fallible operations (e.g. `int(...)` on a non-numeric attribute) return
`Except Unit _`, an uncaught Python exception being the `.error` case.
Python dicts are modelled as association lists in insertion order, with
assignment replacing an existing key in place and appending a fresh key.
-/

/-- Coerce a Lean string literal to the `List Char` representation used
throughout the embedding. -/
def str (s : String) : List Char := s.data

/-- `isPre p s` is true when `p` is a leading segment of `s`
(Python `s.startswith(p)` restricted to the start of the string). -/
def isPre : List Char → List Char → Bool
  | [], _ => true
  | _ :: _, [] => false
  | a :: p, b :: s => a == b && isPre p s

/-- Python's substring test `p in s`. -/
def hasSub (p : List Char) : List Char → Bool
  | [] => p.isEmpty
  | s@(_ :: rest) => isPre p s || hasSub p rest

/-- Split at the first occurrence of `p`: Python `s.split(p, 1)` when `p`
occurs in `s`, returning the part before and the part after the first
occurrence; `none` when `p` does not occur. -/
def splitAtSub (p : List Char) : List Char → Option (List Char × List Char)
  | [] => if isPre p [] then some ([], []) else none
  | c :: rest =>
    if isPre p (c :: rest) then some ([], (c :: rest).drop p.length)
    else (splitAtSub p rest).map (fun q => (c :: q.1, q.2))

/-- Python `s.split(p)[0]`: the part before the first occurrence of `p`,
or the whole string when `p` does not occur. -/
def cutBefore (p s : List Char) : List Char :=
  match splitAtSub p s with
  | some (b, _) => b
  | none => s

/-- Whitespace characters stripped by Python `str.strip()` (ASCII range). -/
def isPySpace (c : Char) : Bool :=
  c == ' ' || c == '\t' || c == '\n' || c == '\r' || c == '\x0b' || c == '\x0c'

/-- Python `str.strip()`. -/
def pyStrip (s : List Char) : List Char :=
  ((s.dropWhile isPySpace).reverse.dropWhile isPySpace).reverse

/-- Python `s.replace(c, r)` for a single-character needle. -/
def replaceChar (c r : Char) (s : List Char) : List Char :=
  s.map (fun x => if x == c then r else x)

/-- Python `s.replace(c, '')` for a single-character needle. -/
def removeChar (c : Char) (s : List Char) : List Char :=
  s.filter (fun x => x != c)

/-- The sanitization applied by `_extract_suite_name_from_artifact` on its
fallback paths: `.replace(' ', '_').replace(';', '').replace('=', '_')`. -/
def sanitizeRaw (s : List Char) : List Char :=
  replaceChar '=' '_' (removeChar ';' (replaceChar ' ' '_' s))

/-- Drop a leading `artifacts_` marker if present
(`clean_name = artifact_name[10:]` guarded by `startswith('artifacts_')`). -/
def stripArtifacts (s : List Char) : List Char :=
  if isPre (str "artifacts_") s then s.drop 10 else s

/-- `ArtifactProcessor._extract_suite_name_from_artifact`.  The Python guard
`'pat' in clean_name` followed by `clean_name.split('pat', 1)` is modelled by
matching on the first-occurrence split directly; the `try`/`except` wrapper is
not modelled because no operation in the body can raise. -/
def extractSuiteNameFromArtifact (artifactName : List Char) : List Char :=
  let cleanName := stripArtifacts artifactName
  match splitAtSub (str "BFT PyTest ") cleanName with
  | some (_, after) => pyStrip (cutBefore (str "; JobAttempt=") after)
  | none =>
    match splitAtSub (str "PyTest test_report=") cleanName with
    | some (_, after) =>
      let sp := cutBefore (str "; JobAttempt=") after
      let sp := if isPre (str "BFT PyTest ") sp then sp.drop 11 else sp
      pyStrip sp
    | none => sanitizeRaw cleanName

/-- Modelled from the spec's words (§4.1), for comparison with the code's
fallback sanitizer: "replacing spaces with underscores and removing `;` and
`=` characters". -/
def specFallbackSanitize (s : List Char) : List Char :=
  removeChar '=' (removeChar ';' (replaceChar ' ' '_' s))

/-- `ArtifactProcessor._has_meaningful_results`. -/
def hasMeaningfulResults (passed failed error : Int) : Bool :=
  decide (passed > 0) || decide (failed > 0) || decide (error > 0)

/-- `TestResult` dataclass. -/
structure TestResult where
  name : List Char
  status : List Char
  duration : ℚ := 0
  failureMessage : Option (List Char) := none
  errorMessage : Option (List Char) := none
  suite : Option (List Char) := none
deriving DecidableEq

/-- `TestSuiteResult` dataclass (counters are Python ints, hence `Int`:
the XML parser's derived `passed` can go negative). -/
structure TestSuiteResult where
  name : List Char
  total : Int := 0
  passed : Int := 0
  failed : Int := 0
  skipped : Int := 0
  errors : Int := 0
  duration : ℚ := 0
  tests : List TestResult := []
deriving DecidableEq

/-- `ArtifactProcessor._merge_suite_results`. -/
def mergeSuiteResults (existing new : TestSuiteResult) : TestSuiteResult :=
  { name := existing.name
    total := existing.total + new.total
    passed := existing.passed + new.passed
    failed := existing.failed + new.failed
    skipped := existing.skipped + new.skipped
    errors := existing.errors + new.errors
    duration := existing.duration + new.duration
    tests := existing.tests ++ new.tests }

/-- A Python dict from suite name to suite record, in insertion order. -/
abbrev SuiteMap := List (List Char × TestSuiteResult)

/-- Python dict assignment `m[k] = v`: replace in place, else append. -/
def dictSet : SuiteMap → List Char → TestSuiteResult → SuiteMap
  | [], k, v => [(k, v)]
  | (k', v') :: rest, k, v =>
    if k' == k then (k, v) :: rest else (k', v') :: dictSet rest k v

/-- Python dict lookup `m.get(k)` / `m[k]`. -/
def dictGet (m : SuiteMap) (k : List Char) : Option TestSuiteResult :=
  (m.find? (fun p => p.1 == k)).map Prod.snd

/-- Python `k in m` over the keys of the dict. -/
def dictKeys (m : SuiteMap) : List (List Char) := m.map Prod.fst

/-- An XML element as seen through `xml.etree.ElementTree`: tag, attributes,
text content, child elements. -/
inductive Xml where
  | elem (tag : List Char) (attrs : List (List Char × List Char))
      (textC : Option (List Char)) (children : List Xml)

/-- The element's tag. -/
def Xml.tagOf : Xml → List Char
  | .elem t _ _ _ => t

/-- Attribute lookup, `elem.get(key)` with no default. -/
def Xml.getAttr : Xml → List Char → Option (List Char)
  | .elem _ attrs _ _, key => (attrs.find? (fun p => p.1 == key)).map Prod.snd

/-- The element's direct children. -/
def Xml.kids : Xml → List Xml
  | .elem _ _ _ cs => cs

/-- The element's text content, `elem.text` (None when absent). -/
def Xml.textOf : Xml → Option (List Char)
  | .elem _ _ t _ => t

/-- `elem.findall(tag)`: direct children with the given tag. -/
def Xml.findAll (e : Xml) (tg : List Char) : List Xml :=
  e.kids.filter (fun c => c.tagOf == tg)

/-- `elem.find(tag)`: first direct child with the given tag, or None. -/
def Xml.findFirst (e : Xml) (tg : List Char) : Option Xml :=
  e.kids.find? (fun c => c.tagOf == tg)

/-- Numeric value of a digit string (most significant first). -/
def digitsToNat (l : List Char) : Nat :=
  l.foldl (fun a c => 10 * a + (c.toNat - 48)) 0

/-- Parse a non-empty all-digit string. -/
def digitsVal (ds : List Char) : Option Nat :=
  if ds.isEmpty then none
  else if ds.all Char.isDigit then some (digitsToNat ds) else none

/-- Python `int(s)` on a string: optional sign around a digit run, with
surrounding whitespace stripped; `none` models the `ValueError`. -/
def pyInt (s : List Char) : Option Int :=
  match pyStrip s with
  | '+' :: ds => (digitsVal ds).map Int.ofNat
  | '-' :: ds => (digitsVal ds).map (fun n => -(Int.ofNat n))
  | ds => (digitsVal ds).map Int.ofNat

/-- Value of `ip . fp` as a rational. -/
def decimalVal (ip fp : List Char) : ℚ :=
  mkRat (Int.ofNat (digitsToNat ip * 10 ^ fp.length + digitsToNat fp))
    (10 ^ fp.length)

/-- Python `float(s)` on the decimal-numeral subset of the float grammar
(the only form the processed reports contain): optional sign, digits with an
optional fractional part; `none` models the `ValueError`. -/
def pyFloat (s : List Char) : Option ℚ :=
  let body := fun (ds : List Char) =>
    let ip := ds.takeWhile Char.isDigit
    let rest := ds.dropWhile Char.isDigit
    match rest with
    | [] => if ip.isEmpty then none else some (decimalVal ip [])
    | '.' :: fs =>
      if fs.all Char.isDigit && !(ip.isEmpty && fs.isEmpty) then
        some (decimalVal ip fs)
      else none
    | _ => none
  match pyStrip s with
  | '+' :: ds => body ds
  | '-' :: ds => (body ds).map (fun q => mkRat (-q.num) q.den)
  | ds => body ds

/-- `int(elem.get(key, 0))`: 0 when the attribute is absent, otherwise the
parsed attribute, an unparsable attribute raising (`.error`). -/
def attrIntD (e : Xml) (key : List Char) : Except Unit Int :=
  match e.getAttr key with
  | none => .ok 0
  | some s => match pyInt s with
    | some v => .ok v
    | none => .error ()

/-- `float(elem.get(key, 0))`: 0 when absent, else the parsed attribute. -/
def attrFloatD (e : Xml) (key : List Char) : Except Unit ℚ :=
  match e.getAttr key with
  | none => .ok 0
  | some s => match pyFloat s with
    | some v => .ok v
    | none => .error ()

/-- The suite-level counters `_parse_junit_xml` reads from a `testsuite`
element, in source order: `tests`, `failures`, `errors`, `skipped`, `time`. -/
def suiteCounters (e : Xml) : Except Unit (Int × Int × Int × Int × ℚ) := do
  let total ← attrIntD e (str "tests")
  let failedC ← attrIntD e (str "failures")
  let errorsC ← attrIntD e (str "errors")
  let skippedC ← attrIntD e (str "skipped")
  let dur ← attrFloatD e (str "time")
  pure (total, failedC, errorsC, skippedC, dur)

/-- One `testcase` child element turned into a `TestResult`
(`_parse_junit_xml`, inner loop). -/
def parseTestcase (suiteName : List Char) (tc : Xml) : Except Unit TestResult := do
  let dur ← attrFloatD tc (str "time")
  let base : TestResult :=
    { name := (tc.getAttr (str "name")).getD (str "Unknown")
      status := str "passed"
      duration := dur
      suite := some suiteName }
  match tc.findFirst (str "failure") with
  | some f =>
    pure { base with status := str "failed"
                     failureMessage := (f.getAttr (str "message")).orElse
                       (fun _ => f.textOf) }
  | none =>
    match tc.findFirst (str "error") with
    | some er =>
      pure { base with status := str "error"
                       errorMessage := (er.getAttr (str "message")).orElse
                         (fun _ => er.textOf) }
    | none =>
      match tc.findFirst (str "skipped") with
      | some _ => pure { base with status := str "skipped" }
      | none => pure base

/-- The body of `_parse_junit_xml`'s per-suite loop: read the counters,
derive `passed`, drop the suite when not meaningful (`continue`), otherwise
parse the testcases and assign into the per-file dict. -/
def junitStep (stem : List Char) (acc : SuiteMap) (e : Xml) :
    Except Unit SuiteMap :=
  let suiteName := (e.getAttr (str "name")).getD stem
  match suiteCounters e with
  | .error u => .error u
  | .ok (total, failedC, errorsC, skippedC, dur) =>
    let passedC := total - failedC - errorsC - skippedC
    if hasMeaningfulResults passedC failedC errorsC then
      match (e.findAll (str "testcase")).mapM (parseTestcase suiteName) with
      | .error u => .error u
      | .ok tests =>
        .ok (dictSet acc suiteName
          { name := suiteName, total := total, passed := passedC,
            failed := failedC, skipped := skippedC, errors := errorsC,
            duration := dur, tests := tests })
    else
      .ok acc

/-- `ArtifactProcessor._parse_junit_xml`.  Its input is the outcome of
`ET.parse`: a `ParseError` (caught in the function, yielding the empty dict)
or the root element.  An uncaught `ValueError` from an `int`/`float`
conversion propagates as `.error`. -/
def parseJunitXml (stem : List Char) (parsed : Except Unit Xml) :
    Except Unit SuiteMap :=
  match parsed with
  | .error _ => .ok []
  | .ok root =>
    let suites :=
      if root.tagOf == str "testsuites" then root.findAll (str "testsuite")
      else [root]
    suites.foldlM (junitStep stem) []

/-- Python `s.lower()` (ASCII range, the only characters the inputs use). -/
def lowerStr (s : List Char) : List Char := s.map Char.toLower

/-- One element of the `tests` array of a pytest-json-report document, as
read by `_parse_json_report` (a typed projection of the JSON object). -/
structure JsonTest where
  nodeid : Option (List Char) := none
  outcome : Option (List Char) := none
  duration : Option ℚ := none
  callLongrepr : Option (List Char) := none
deriving DecidableEq

/-- The `summary` object of a JSON report, as read by `_parse_json_report`
(the source field for the errors counter is named `error`, singular). -/
structure JsonSummary where
  total : Option Int := none
  passed : Option Int := none
  failed : Option Int := none
  skipped : Option Int := none
  errorCount : Option Int := none
deriving DecidableEq

/-- A decoded JSON report document, as read by `_parse_json_report`. -/
structure JsonDoc where
  testsArr : Option (List JsonTest) := none
  summary : Option JsonSummary := none
  duration : Option ℚ := none
deriving DecidableEq

/-- One `tests` array element turned into a `TestResult`
(`_parse_json_report`, `tests` branch). -/
def jsonTestResult (suiteName : List Char) (td : JsonTest) : TestResult :=
  let status := lowerStr (td.outcome.getD (str "unknown"))
  { name := td.nodeid.getD (str "Unknown")
    status := status
    duration := td.duration.getD 0
    suite := some suiteName
    failureMessage :=
      if status == str "failed" then td.callLongrepr else none }

/-- The per-test counter updates of `_parse_json_report`: exact match on
`passed`/`failed`/`skipped`, anything else goes to the errors bucket. -/
def jsonTally (acc : Int × Int × Int × Int) (t : TestResult) :
    Int × Int × Int × Int :=
  if t.status == str "passed" then (acc.1 + 1, acc.2.1, acc.2.2.1, acc.2.2.2)
  else if t.status == str "failed" then (acc.1, acc.2.1 + 1, acc.2.2.1, acc.2.2.2)
  else if t.status == str "skipped" then (acc.1, acc.2.1, acc.2.2.1 + 1, acc.2.2.2)
  else (acc.1, acc.2.1, acc.2.2.1, acc.2.2.2 + 1)

/-- `ArtifactProcessor._parse_json_report`.  Its input is the outcome of
`json.load`; a decode error is caught in the function and yields the empty
dict, as does a document in neither recognized shape. -/
def parseJsonReport (stem : List Char) (decoded : Except Unit JsonDoc) :
    SuiteMap :=
  match decoded with
  | .error _ => []
  | .ok data =>
    match data.testsArr with
    | some tds =>
      let tests := tds.map (jsonTestResult stem)
      let c := tests.foldl jsonTally (0, 0, 0, 0)
      let r : TestSuiteResult :=
        { name := stem, total := Int.ofNat tests.length, passed := c.1,
          failed := c.2.1, skipped := c.2.2.1, errors := c.2.2.2,
          duration := data.duration.getD 0, tests := tests }
      if hasMeaningfulResults r.passed r.failed r.errors then [(stem, r)]
      else []
    | none =>
      match data.summary with
      | some smr =>
        let r : TestSuiteResult :=
          { name := stem, total := smr.total.getD 0,
            passed := smr.passed.getD 0, failed := smr.failed.getD 0,
            skipped := smr.skipped.getD 0, errors := smr.errorCount.getD 0,
            duration := data.duration.getD 0, tests := [] }
        if hasMeaningfulResults r.passed r.failed r.errors then [(stem, r)]
        else []
      | none => []

/-- Inner loop of matching the lazy group of `FAILED (.+?) -`: `acc` holds the
group characters consumed so far (reversed); at each position first try to
match the closing literal `" -"` (lazy: shortest group wins), else consume one
more non-newline character. -/
def grabGo : List Char → List Char → Option (List Char × List Char)
  | acc, s =>
    if isPre (str " -") s then some (acc.reverse, s.drop 2)
    else
      match s with
      | [] => none
      | c :: rest => if c == '\n' then none else grabGo (c :: acc) rest

/-- Match the `(.+?) -` tail of the pattern at the current position: at least
one non-newline character, lazily extended until `" -"` follows.  Returns the
group and the remainder after the match. -/
def grabName : List Char → Option (List Char × List Char)
  | [] => none
  | c :: rest => if c == '\n' then none else grabGo [c] rest

theorem grabGo_rem_le (s : List Char) : ∀ acc nm r,
    grabGo acc s = some (nm, r) → r.length ≤ s.length := by
  induction s with
  | nil =>
    intro acc nm r h
    rw [grabGo] at h
    have he : isPre (str " -") [] = false := rfl
    rw [he] at h
    simp at h
  | cons c rest ih =>
    intro acc nm r h
    rw [grabGo] at h
    by_cases hp : isPre (str " -") (c :: rest) = true
    · simp only [hp, if_true] at h
      cases h
      simp only [List.length_cons, List.length_drop]
      omega
    · simp only [hp, if_false, Bool.false_eq_true] at h
      by_cases hn : (c == '\n') = true
      · simp [hn] at h
      · simp only [hn, if_false, Bool.false_eq_true] at h
        have := ih (c :: acc) nm r h
        simp only [List.length_cons]
        omega

theorem grabName_rem_lt (s : List Char) : ∀ nm r,
    grabName s = some (nm, r) → r.length < s.length := by
  cases s with
  | nil => intro nm r h; simp [grabName] at h
  | cons c rest =>
    intro nm r h
    rw [grabName] at h
    by_cases hn : (c == '\n') = true
    · simp [hn] at h
    · simp only [hn, if_false, Bool.false_eq_true] at h
      have := grabGo_rem_le rest [c] nm r h
      simp only [List.length_cons]
      omega

/-- Scanning loop of `re.findall(r'FAILED (.+?) -', content)`, structurally
recursive on a fuel bound so that it evaluates by kernel reduction.  Every
step shortens the scanned string by at least one character
(`grabName_rem_lt`), so a fuel of the string's length never runs out. -/
def findFailedAux : Nat → List Char → List (List Char)
  | 0, _ => []
  | _ + 1, [] => []
  | fuel + 1, c :: rest =>
    if isPre (str "FAILED ") (c :: rest) then
      match grabName ((c :: rest).drop 7) with
      | some (nm, rem) => nm :: findFailedAux fuel rem
      | none => findFailedAux fuel rest
    else findFailedAux fuel rest

/-- `re.findall(r'FAILED (.+?) -', content)`: scan left to right for
non-overlapping leftmost matches, resuming after each match end. -/
def findFailed (s : List Char) : List (List Char) :=
  findFailedAux s.length s

/-- `re.search(r'(\d+) <word>', content)`: leftmost match of a digit run
followed by the literal `lit` (which begins with the separating space);
returns the value of the digit group.  Since the character after the greedy
`\d+` must be the non-digit start of `lit`, the maximal digit run is the only
candidate at each start position. -/
def searchCount (lit : List Char) : List Char → Option Nat
  | [] => none
  | c :: rest =>
    if c.isDigit then
      if isPre lit ((c :: rest).dropWhile Char.isDigit) then
        some (digitsToNat ((c :: rest).takeWhile Char.isDigit))
      else searchCount lit rest
    else searchCount lit rest

/-- First-match count for `(\d+) passed` in `_parse_text_report` (0 when the
pattern does not occur). -/
def textPassedOf (content : List Char) : Int :=
  Int.ofNat ((searchCount (str " passed") content).getD 0)

/-- First-match count for `(\d+) failed`. -/
def textFailedOf (content : List Char) : Int :=
  Int.ofNat ((searchCount (str " failed") content).getD 0)

/-- First-match count for `(\d+) skipped`. -/
def textSkippedOf (content : List Char) : Int :=
  Int.ofNat ((searchCount (str " skipped") content).getD 0)

/-- First-match count for `(\d+) error`. -/
def textErrorsOf (content : List Char) : Int :=
  Int.ofNat ((searchCount (str " error") content).getD 0)

/-- `total` as computed by `_parse_text_report`: the sum of the four
first-match counts. -/
def textTotalOf (content : List Char) : Int :=
  textPassedOf content + textFailedOf content + textSkippedOf content +
    textErrorsOf content

/-- `ArtifactProcessor._parse_text_report`.  The extracted `FAILED` test
names populate `tests`; the counters come only from the four summary
regexes; the suite is included exactly when `total > 0`. -/
def parseTextReport (stem content : List Char) : SuiteMap :=
  let tests : List TestResult := (findFailed content).map (fun nm =>
    { name := nm, status := str "failed", suite := some stem })
  if textTotalOf content > 0 then
    [(stem,
      { name := stem, total := textTotalOf content,
        passed := textPassedOf content, failed := textFailedOf content,
        skipped := textSkippedOf content, errors := textErrorsOf content,
        tests := tests })]
  else []

/-- One item of the regex shape used by the HTML fallback row pattern:
a literal, or `[^c]*` (greedy star over a negated single-character class). -/
inductive RxItem where
  | lit (l : List Char)
  | starNot (c : Char)

/-- Greedy backtracking for one `[^c]*` star: `f` matches the rest of the
pattern; star widths are tried from `k` downward (longest first), the
semantics of the Python `re` engine. -/
def tryStar (f : List Char → Option Nat) (s : List Char) : Nat → Option Nat
  | 0 => f s
  | k + 1 =>
    match f (s.drop (k + 1)) with
    | some m => some (k + 1 + m)
    | none => tryStar f s k

/-- Backtracking matcher for a sequence of `RxItem`s anchored at the start of
`s`; returns the length of the match found first under greedy
(longest-star-first) backtracking. -/
def matchLen : List RxItem → List Char → Option Nat
  | [], _ => some 0
  | .lit l :: ps, s =>
    if isPre l s then (matchLen ps (s.drop l.length)).map (fun m => l.length + m)
    else none
  | .starNot c :: ps, s =>
    tryStar (fun t => matchLen ps t) s ((s.takeWhile (fun x => x != c)).length)

/-- Scanning loop of `len(re.findall(...))`, fuelled like `findFailedAux`
(each step consumes at least one character, so the string's length is always
enough fuel). -/
def countMatchesAux (p : List RxItem) : Nat → List Char → Nat
  | 0, _ => 0
  | _ + 1, [] => 0
  | fuel + 1, c :: rest =>
    match matchLen p (c :: rest) with
    | some m => 1 + countMatchesAux p fuel ((c :: rest).drop (max m 1))
    | none => countMatchesAux p fuel rest

/-- `len(re.findall(pattern, content))` for a pattern of this shape: scan for
leftmost non-overlapping matches, resuming after each match end (a zero-width
match advances by one, as the Python scanner does). -/
def countMatches (p : List RxItem) (s : List Char) : Nat :=
  countMatchesAux p s.length s

/-- The pytest-html row pattern
`<tr[^>]*class="[^"]*results-table-row[^"]*"[^>]*>` of
`_parse_html_report`'s fallback path. -/
def rowRx : List RxItem :=
  [.lit (str "<tr"), .starNot '>', .lit (str "class=\""), .starNot '"',
   .lit (str "results-table-row"), .starNot '"', .lit (str "\""),
   .starNot '>', .lit (str ">")]

/-- `re.search(r'(\d+)\s+<word>', content, re.IGNORECASE)`: leftmost digit
run, then at least one whitespace character, then the literal compared
case-insensitively; returns the digit group's value. -/
def searchCountWs (lit : List Char) : List Char → Option Nat
  | [] => none
  | c :: rest =>
    if c.isDigit then
      let after := (c :: rest).dropWhile Char.isDigit
      if (after.takeWhile isPySpace).length > 0 &&
          isPre lit (lowerStr (after.dropWhile isPySpace)) then
        some (digitsToNat ((c :: rest).takeWhile Char.isDigit))
      else searchCountWs lit rest
    else searchCountWs lit rest

/-- Fallback-path count for `(\d+)\s+passed` in `_parse_html_report`. -/
def htmlPassedOf (content : List Char) : Int :=
  Int.ofNat ((searchCountWs (str "passed") content).getD 0)

/-- Fallback-path count for `(\d+)\s+failed`. -/
def htmlFailedOf (content : List Char) : Int :=
  Int.ofNat ((searchCountWs (str "failed") content).getD 0)

/-- Fallback-path count for `(\d+)\s+skipped`. -/
def htmlSkippedOf (content : List Char) : Int :=
  Int.ofNat ((searchCountWs (str "skipped") content).getD 0)

/-- Fallback-path count for `(\d+)\s+error`. -/
def htmlErrorsOf (content : List Char) : Int :=
  Int.ofNat ((searchCountWs (str "error") content).getD 0)

/-- Number of `results-table-row` matches (case-insensitive) in the raw
HTML text. -/
def htmlRowsOf (content : List Char) : Nat :=
  countMatches rowRx (lowerStr content)

/-- `ArtifactProcessor._parse_html_report` in the configuration without the
optional BeautifulSoup dependency (`HTML_PARSER_AVAILABLE = False`), the
branch implemented entirely in this repository: regex counts, row-count
total, derived total when still 0, meaningfulness filter, then the
`total > 0` inclusion check. -/
def parseHtmlReportFb (stem content : List Char) : SuiteMap :=
  let p := htmlPassedOf content
  let f := htmlFailedOf content
  let sk := htmlSkippedOf content
  let er := htmlErrorsOf content
  let rowTotal : Int :=
    if htmlRowsOf content > 0 then Int.ofNat (htmlRowsOf content) else 0
  let total := if rowTotal == 0 then p + f + sk + er else rowTotal
  if !(hasMeaningfulResults p f er) then []
  else if total > 0 then
    [(stem, { name := stem, total := total, passed := p, failed := f,
              skipped := sk, errors := er })]
  else []

/-- Index of the last occurrence of `c` in `s` (Python `s.rfind(c)`,
`none` for -1). -/
def rfindChar (c : Char) (s : List Char) : Option Nat :=
  match s.reverse.findIdx? (fun x => x == c) with
  | some j => some (s.length - 1 - j)
  | none => none

/-- `pathlib.PurePath.suffix` of a final path component: the part from the
last dot on, provided that dot is neither the first nor the last character;
empty otherwise. -/
def pySuffix (fname : List Char) : List Char :=
  match rfindChar '.' fname with
  | some i => if 0 < i && i < fname.length - 1 then fname.drop i else []
  | none => []

/-- `pathlib.PurePath.stem`: the component with `pySuffix` removed. -/
def pyStem (fname : List Char) : List Char :=
  match rfindChar '.' fname with
  | some i => if 0 < i && i < fname.length - 1 then fname.take i else fname
  | none => fname

/-- `self.supported_formats`. -/
def supportedFormats : List (List Char) :=
  [str ".xml", str ".json", str ".html", str ".txt", str ".log"]

/-- `test_patterns` of `_is_test_result_file`. -/
def testPatterns : List (List Char) :=
  [str "test", str "result", str "report", str "junit", str "pytest",
   str "coverage", str "pytr", str "pytest-report", str "test-report",
   str "test_report"]

/-- `ArtifactProcessor._is_test_result_file`, applied to the file's final
path component. -/
def isTestResultFile (fname : List Char) : Bool :=
  if !(supportedFormats.contains (lowerStr (pySuffix fname))) then false
  else testPatterns.any (fun p => hasSub p (lowerStr fname))

/-- The content of an extracted file, as consumed by the parser selected for
its extension: the outcome of `ET.parse` for XML, of `json.load` for JSON,
and the raw text for HTML/text/log.  A constructor mismatching the file's
extension models a file whose bytes cannot be read at all (the read raises). -/
inductive FileContent where
  | xmlData (t : Except Unit Xml)
  | jsonData (d : Except Unit JsonDoc)
  | textData (s : List Char)

/-- An extracted file: final path component plus content. -/
structure AFile where
  fname : List Char
  content : FileContent

/-- The per-file dispatch of `process_test_files`: select the parser by the
lowercased extension.  `.error` is any exception escaping the chosen parser
(caught by the orchestrator); the final `.ok []` is the `else: continue`
branch for an unsupported format. -/
def parseDispatch (f : AFile) : Except Unit SuiteMap :=
  let sfx := lowerStr (pySuffix f.fname)
  if sfx == str ".xml" then
    match f.content with
    | .xmlData t => parseJunitXml (pyStem f.fname) t
    | _ => .error ()
  else if sfx == str ".json" then
    match f.content with
    | .jsonData d => .ok (parseJsonReport (pyStem f.fname) d)
    | _ => .error ()
  else if sfx == str ".html" then
    match f.content with
    | .textData s => .ok (parseHtmlReportFb (pyStem f.fname) s)
    | _ => .error ()
  else if sfx == str ".txt" || sfx == str ".log" then
    match f.content with
    | .textData s => .ok (parseTextReport (pyStem f.fname) s)
    | _ => .error ()
  else .ok []

/-- The body of the merge loop of `process_test_files`: one
`(suite_name, suite_result)` item folded into the accumulator, merging on an
existing key (`_merge_suite_results`) and assigning directly otherwise. -/
def mergeStepOne (a : SuiteMap) (p : List Char × TestSuiteResult) : SuiteMap :=
  match dictGet a p.1 with
  | some old => dictSet a p.1 (mergeSuiteResults old p.2)
  | none => dictSet a p.1 p.2

/-- The merge loop of `process_test_files`: fold one per-file suite map into
the accumulator. -/
def mergeIntoAcc (acc m : SuiteMap) : SuiteMap :=
  m.foldl mergeStepOne acc

/-- One iteration of the file loop of `process_test_files`: skip ineligible
files; catch any parser exception (`continue`); otherwise merge the
per-file map. -/
def processStep (acc : SuiteMap) (f : AFile) : SuiteMap :=
  if !(isTestResultFile f.fname) then acc
  else
    match parseDispatch f with
    | .error _ => acc
    | .ok m => mergeIntoAcc acc m

/-- `ArtifactProcessor.process_test_files`. -/
def processTestFiles (files : List AFile) : SuiteMap :=
  files.foldl processStep []

/-- A `testsuite` element with `tests="5" failures="1" errors="0"
skipped="1"`. -/
def exSuite5101 : Xml :=
  .elem (str "testsuite")
    [(str "name", str "s1"), (str "tests", str "5"), (str "failures", str "1"),
     (str "errors", str "0"), (str "skipped", str "1")] none []

/-- The suite record the structured-XML parser produces for `exSuite5101`. -/
def rec51 : TestSuiteResult :=
  { name := str "s1", total := 5, passed := 3, failed := 1, skipped := 1,
    errors := 0 }

/-- A `testsuite` element whose attributes are inconsistent
(`tests="1" failures="1" skipped="2"`), driving the derived `passed`
negative. -/
def exSuiteNeg : Xml :=
  .elem (str "testsuite")
    [(str "name", str "sneg"), (str "tests", str "1"),
     (str "failures", str "1"), (str "skipped", str "2")] none []

/-- A `testsuite` element with `tests="3" skipped="3" failures="0"
errors="0"`: all tests skipped. -/
def exSuiteAllSkipped : Xml :=
  .elem (str "testsuite")
    [(str "name", str "s2"), (str "tests", str "3"), (str "failures", str "0"),
     (str "errors", str "0"), (str "skipped", str "3")] none []

/-- An eligible XML file containing only the all-skipped suite. -/
def exFileAllSkipped : AFile :=
  ⟨str "results.xml", .xmlData (.ok exSuiteAllSkipped)⟩

/-- A `testsuite` element whose `tests` attribute is not numeric, so parsing
it raises `ValueError`. -/
def exBadXml : Xml :=
  .elem (str "testsuite") [(str "tests", str "abc")] none []

/-- An eligible XML file whose parse raises. -/
def exBadFile : AFile := ⟨str "test.xml", .xmlData (.ok exBadXml)⟩

/-- A summary-shape JSON document in which every test was skipped. -/
def exJsonAllSkipped : JsonDoc :=
  { summary := some { total := some 3, passed := some 0, failed := some 0,
                      skipped := some 3, errorCount := some 0 } }

/-- A suite record with two passed tests. -/
def rA : TestSuiteResult := { name := str "suiteA", total := 2, passed := 2 }

/-- A suite record with one failed test. -/
def rB : TestSuiteResult := { name := str "suiteA", total := 1, failed := 1 }

/-- Decidable equality of parser outcomes, for evaluating the concrete
instances below. -/
instance {α : Type _} [DecidableEq α] : DecidableEq (Except Unit α) := fun a b =>
  match a, b with
  | .ok x, .ok y =>
    if h : x = y then .isTrue (by rw [h]) else
      .isFalse (fun hc => by cases hc; exact h rfl)
  | .error x, .error y => .isTrue (by cases x; cases y; rfl)
  | .ok _, .error _ => .isFalse (fun hc => by cases hc)
  | .error _, .ok _ => .isFalse (fun hc => by cases hc)

theorem isPre_iff (p : List Char) : ∀ s, isPre p s = true ↔ ∃ r, s = p ++ r := by
  induction p with
  | nil => intro s; simp [isPre]
  | cons a p ih =>
    intro s
    cases s with
    | nil => simp [isPre]
    | cons b t =>
      simp only [isPre, Bool.and_eq_true, beq_iff_eq, ih, List.cons_append]
      constructor
      · rintro ⟨rfl, r, rfl⟩; exact ⟨r, rfl⟩
      · rintro ⟨r, h⟩
        injection h with h1 h2
        exact ⟨h1.symm, r, h2⟩

theorem hasSub_iff (p : List Char) : ∀ s,
    hasSub p s = true ↔ ∃ l r, s = l ++ p ++ r := by
  intro s
  induction s with
  | nil =>
    simp only [hasSub, List.isEmpty_iff]
    constructor
    · rintro rfl; exact ⟨[], [], rfl⟩
    · rintro ⟨l, r, h⟩
      rcases List.append_eq_nil.mp h.symm with ⟨h1, h2⟩
      rcases List.append_eq_nil.mp h1 with ⟨_, h3⟩
      exact h3
  | cons c t ih =>
    simp only [hasSub, Bool.or_eq_true, isPre_iff, ih]
    constructor
    · rintro (⟨r, hr⟩ | ⟨l, r, rfl⟩)
      · exact ⟨[], r, by simpa using hr⟩
      · exact ⟨c :: l, r, rfl⟩
    · rintro ⟨l, r, h⟩
      cases l with
      | nil => left; exact ⟨r, by simpa using h⟩
      | cons x l =>
        injection h with h1 h2
        right; exact ⟨l, r, h2⟩

theorem splitAtSub_eq_none (p : List Char) : ∀ s,
    hasSub p s = false → splitAtSub p s = none := by
  intro s
  induction s with
  | nil =>
    intro h
    rw [hasSub] at h
    rw [splitAtSub]
    cases p with
    | nil => simp [List.isEmpty] at h
    | cons a q => simp [isPre]
  | cons c t ih =>
    intro h
    rw [hasSub, Bool.or_eq_false_iff] at h
    rw [splitAtSub, h.1]
    simp [ih h.2]

theorem eq_not_mem_sanitizeRaw (s : List Char) : '=' ∉ sanitizeRaw s := by
  intro hm
  simp only [sanitizeRaw, replaceChar, List.mem_map] at hm
  rcases hm with ⟨c, _, hc⟩
  by_cases hcq : c = '='
  · subst hcq; simp at hc
  · rw [if_neg (by simpa using hcq)] at hc
    exact hcq hc

theorem sanitizeRaw_ne_nil_iff (s : List Char) :
    sanitizeRaw s ≠ [] ↔ s.any (fun c => c != ';') = true := by
  induction s with
  | nil => simp [sanitizeRaw, replaceChar, removeChar]
  | cons c t ih =>
    by_cases h : c = ';'
    · subst h
      simpa [sanitizeRaw, replaceChar, removeChar, List.filter_cons] using ih
    · have hg : ((if c = ' ' then '_' else c) : Char) ≠ ';' := by
        by_cases hsp : c = ' '
        · subst hsp; simp
        · rw [if_neg hsp]; exact h
      simp [sanitizeRaw, replaceChar, removeChar, List.filter_cons, hg, h]

theorem dictGet_cons (a : List Char) (b : TestSuiteResult) (rest : SuiteMap)
    (k : List Char) :
    dictGet ((a, b) :: rest) k =
      if (a == k) = true then some b else dictGet rest k := by
  simp only [dictGet, List.find?]
  cases h : a == k <;> simp

theorem dictGet_dictSet_self : ∀ (m : SuiteMap) k v,
    dictGet (dictSet m k v) k = some v := by
  intro m k v
  induction m with
  | nil => simp [dictSet, dictGet_cons]
  | cons p rest ih =>
    obtain ⟨k', v'⟩ := p
    rw [dictSet]
    by_cases h : (k' == k) = true
    · rw [if_pos h, dictGet_cons]
      simp
    · rw [if_neg h, dictGet_cons, if_neg h]
      exact ih

theorem dictGet_dictSet_cases : ∀ (m : SuiteMap) k v k' w,
    dictGet (dictSet m k v) k' = some w → w = v ∨ dictGet m k' = some w := by
  intro m k v
  induction m with
  | nil =>
    intro k' w h
    rw [dictSet, dictGet_cons] at h
    by_cases hk : (k == k') = true
    · rw [if_pos hk] at h; left; cases h; rfl
    · rw [if_neg hk] at h; simp [dictGet] at h
  | cons p rest ih =>
    obtain ⟨a, b⟩ := p
    intro k' w h
    rw [dictSet] at h
    by_cases hak : (a == k) = true
    · rw [if_pos hak] at h
      rw [dictGet_cons] at h
      rw [dictGet_cons]
      by_cases hk : (k == k') = true
      · rw [if_pos hk] at h; left; cases h; rfl
      · rw [if_neg hk] at h
        have hak' : (a == k') = false := by
          have ha : a = k := by simpa using hak
          subst ha
          simpa using hk
        rw [hak']
        simp only [Bool.false_eq_true, if_false]
        right; exact h
    · rw [if_neg hak] at h
      rw [dictGet_cons] at h
      rw [dictGet_cons]
      by_cases hak' : (a == k') = true
      · rw [if_pos hak'] at h ⊢; right; exact h
      · rw [if_neg hak'] at h ⊢
        exact ih k' w h

theorem dictSet_append : ∀ (m : SuiteMap) k v,
    dictGet m k = none → dictSet m k v = m ++ [(k, v)] := by
  intro m k v
  induction m with
  | nil => intro _; rfl
  | cons p rest ih =>
    obtain ⟨a, b⟩ := p
    intro h
    rw [dictGet_cons] at h
    by_cases hak : (a == k) = true
    · rw [if_pos hak] at h; simp at h
    · rw [if_neg hak] at h
      rw [dictSet, if_neg hak]
      simp only [List.cons_append, List.cons.injEq, true_and]
      exact ih h

theorem mem_dictKeys_dictSet : ∀ (m : SuiteMap) k v a,
    a ∈ dictKeys (dictSet m k v) → a ∈ dictKeys m ∨ a = k := by
  intro m k v
  induction m with
  | nil =>
    intro a h
    simp only [dictSet, dictKeys, List.map_cons, List.map_nil,
      List.mem_cons, List.not_mem_nil, or_false] at h
    right; exact h
  | cons p rest ih =>
    obtain ⟨x, y⟩ := p
    intro a h
    rw [dictSet] at h
    by_cases hxk : (x == k) = true
    · rw [if_pos hxk] at h
      simp only [dictKeys, List.map_cons, List.mem_cons] at h ⊢
      rcases h with h | h
      · right; exact h
      · left; right; exact h
    · rw [if_neg hxk] at h
      simp only [dictKeys, List.map_cons, List.mem_cons] at h ⊢
      rcases h with h | h
      · left; left; exact h
      · rcases ih a h with h' | h'
        · left; right; exact h'
        · right; exact h'

theorem mem_dictKeys_mergeStepOne (acc : SuiteMap)
    (p : List Char × TestSuiteResult) (a : List Char)
    (h : a ∈ dictKeys (mergeStepOne acc p)) : a ∈ dictKeys acc ∨ a = p.1 := by
  rw [mergeStepOne] at h
  cases hg : dictGet acc p.1 with
  | none => rw [hg] at h; exact mem_dictKeys_dictSet acc p.1 p.2 a h
  | some old => rw [hg] at h; exact mem_dictKeys_dictSet acc p.1 _ a h

theorem mem_dictKeys_mergeIntoAcc : ∀ (m acc : SuiteMap) (a : List Char),
    a ∈ dictKeys (mergeIntoAcc acc m) → a ∈ dictKeys acc ∨ a ∈ dictKeys m := by
  intro m
  induction m with
  | nil => intro acc a h; left; simpa [mergeIntoAcc] using h
  | cons p rest ih =>
    intro acc a h
    have h' : a ∈ dictKeys (mergeIntoAcc (mergeStepOne acc p) rest) := by
      simpa [mergeIntoAcc, List.foldl_cons] using h
    rcases ih (mergeStepOne acc p) a h' with h1 | h1
    · rcases mem_dictKeys_mergeStepOne acc p a h1 with h2 | h2
      · left; exact h2
      · right
        simp only [dictKeys, List.map_cons, List.mem_cons]
        left; exact h2
    · right
      simp only [dictKeys, List.map_cons, List.mem_cons]
      right; exact h1

theorem processStep_cases (acc : SuiteMap) (f : AFile) :
    processStep acc f = acc ∨
      ∃ m, parseDispatch f = .ok m ∧ processStep acc f = mergeIntoAcc acc m := by
  rw [processStep]
  by_cases he : isTestResultFile f.fname = true
  · rw [he]
    simp only [Bool.not_true, Bool.false_eq_true, if_false]
    cases hd : parseDispatch f with
    | error u => left; rfl
    | ok m => right; exact ⟨m, rfl, rfl⟩
  · rw [Bool.not_eq_true] at he
    rw [he]
    left; rfl

theorem processStep_of_error (f : AFile) (hf : parseDispatch f = .error ())
    (acc : SuiteMap) : processStep acc f = acc := by
  rcases processStep_cases acc f with h | ⟨m, hm, _⟩
  · exact h
  · rw [hf] at hm; cases hm

theorem processStep_of_inelig (f : AFile) (hf : isTestResultFile f.fname = false)
    (acc : SuiteMap) : processStep acc f = acc := by
  rw [processStep, hf]
  rfl

theorem mem_dictKeys_processFold : ∀ (files : List AFile) (acc : SuiteMap)
    (a : List Char), a ∈ dictKeys (files.foldl processStep acc) →
    a ∈ dictKeys acc ∨
      ∃ f, f ∈ files ∧ ∃ m, parseDispatch f = .ok m ∧ a ∈ dictKeys m := by
  intro files
  induction files with
  | nil => intro acc a h; left; simpa using h
  | cons f fs ih =>
    intro acc a h
    rw [List.foldl_cons] at h
    rcases ih (processStep acc f) a h with h1 | ⟨g, hg, m, hm, ha⟩
    · rcases processStep_cases acc f with h2 | ⟨m, hm, h2⟩
      · rw [h2] at h1; left; exact h1
      · rw [h2] at h1
        rcases mem_dictKeys_mergeIntoAcc m acc a h1 with h3 | h3
        · left; exact h3
        · right; exact ⟨f, List.mem_cons_self f fs, m, hm, h3⟩
    · right; exact ⟨g, List.mem_cons_of_mem f hg, m, hm, ha⟩

theorem junitStep_skip (stem : List Char) (acc : SuiteMap) (e : Xml)
    (t f er sk : Int) (d : ℚ)
    (hc : suiteCounters e = .ok (t, f, er, sk, d))
    (hm : hasMeaningfulResults (t - f - er - sk) f er = false) :
    junitStep stem acc e = .ok acc := by
  simp only [junitStep, hc]
  simp [hm]

theorem junitStep_ok_cases (stem : List Char) (acc : SuiteMap) (e : Xml)
    (m : SuiteMap) (h : junitStep stem acc e = .ok m) :
    m = acc ∨ ∃ nm r, m = dictSet acc nm r ∧
      r.passed = r.total - r.failed - r.errors - r.skipped := by
  rw [junitStep] at h
  split at h
  · cases h
  · split at h
    · dsimp only [] at h
      split at h
      · cases h
      · injection h with h
        left; exact h.symm
    · dsimp only [] at h
      split at h
      · injection h with h
        right
        refine ⟨_, _, h.symm, ?_⟩
        rfl
      · injection h with h
        left; exact h.symm

theorem junit_fold_inv : ∀ (suites : List Xml) (stem : List Char)
    (acc m : SuiteMap),
    (∀ nm r, dictGet acc nm = some r →
      r.passed = r.total - r.failed - r.errors - r.skipped) →
    List.foldlM (junitStep stem) acc suites = .ok m →
    ∀ nm r, dictGet m nm = some r →
      r.passed = r.total - r.failed - r.errors - r.skipped := by
  intro suites
  induction suites with
  | nil =>
    intro stem acc m hinv hf
    simp only [List.foldlM_nil] at hf
    cases hf
    exact hinv
  | cons e es ih =>
    intro stem acc m hinv hf
    rw [List.foldlM_cons] at hf
    cases hj : junitStep stem acc e with
    | error u =>
      rw [hj] at hf
      simp [Bind.bind, Except.bind] at hf
    | ok acc' =>
      rw [hj] at hf
      have hf' : List.foldlM (junitStep stem) acc' es = .ok m := by
        simpa [Bind.bind, Except.bind] using hf
      have hinv' : ∀ nm r, dictGet acc' nm = some r →
          r.passed = r.total - r.failed - r.errors - r.skipped := by
        rcases junitStep_ok_cases stem acc e acc' hj with h1 | ⟨nm0, r0, h1, h2⟩
        · subst h1; exact hinv
        · subst h1
          intro nm r hr
          rcases dictGet_dictSet_cases acc nm0 r0 nm r hr with h3 | h3
          · subst h3; exact h2
          · exact hinv nm r h3
      exact ih stem acc' m hinv' hf'

theorem contains_iff_mem_ls (l : List (List Char)) (a : List Char) :
    l.contains a = true ↔ a ∈ l := by
  simp [List.contains]

/-- C1: for every pair of `TestSuiteResult` records, `_merge_suite_results`
returns a record whose `total`, `passed`, `failed`, `skipped`, `errors` and
`duration` are the component-wise sums and whose `tests` is the concatenation
of the inputs' `tests` lists in order, with no deduplication; the inputs are
not mutated (the embedding of the merge is a pure function of its two
arguments, which it reads but never rebinds). -/
theorem merge_component_sums (a b : TestSuiteResult) :
    (mergeSuiteResults a b).total = a.total + b.total ∧
    (mergeSuiteResults a b).passed = a.passed + b.passed ∧
    (mergeSuiteResults a b).failed = a.failed + b.failed ∧
    (mergeSuiteResults a b).skipped = a.skipped + b.skipped ∧
    (mergeSuiteResults a b).errors = a.errors + b.errors ∧
    (mergeSuiteResults a b).duration = a.duration + b.duration ∧
    (mergeSuiteResults a b).tests = a.tests ++ b.tests :=
  ⟨rfl, rfl, rfl, rfl, rfl, rfl, rfl⟩

/-- C2 counterexample: suite-name resolution does not always return a
non-empty string — the empty input and the bare `artifacts_` marker both
resolve to the empty string. -/
theorem resolve_empty_counterexample :
    extractSuiteNameFromArtifact (str "") = [] ∧
    extractSuiteNameFromArtifact (str "artifacts_") = [] := by
  exact ⟨by decide, by decide⟩

/-- C2 (amended): suite-name resolution is total (it is a Lean function and
terminates on every input, never raising), but the result may be empty; on
inputs whose prefix-stripped form contains neither extraction marker, the
result is non-empty exactly when the prefix-stripped input has a character
other than `;`. -/
theorem resolve_nonempty_characterization (s : List Char)
    (h1 : hasSub (str "BFT PyTest ") (stripArtifacts s) = false)
    (h2 : hasSub (str "PyTest test_report=") (stripArtifacts s) = false) :
    extractSuiteNameFromArtifact s ≠ [] ↔
      (stripArtifacts s).any (fun c => c != ';') = true := by
  rw [extractSuiteNameFromArtifact]
  rw [splitAtSub_eq_none _ _ h1, splitAtSub_eq_none _ _ h2]
  exact sanitizeRaw_ne_nil_iff _

/-- Witness for C2's amended theorem at the input `"random name"`. -/
theorem resolve_nonempty_characterization_witness :
    hasSub (str "BFT PyTest ") (stripArtifacts (str "random name")) = false ∧
    hasSub (str "PyTest test_report=") (stripArtifacts (str "random name")) =
      false ∧
    (extractSuiteNameFromArtifact (str "random name") ≠ [] ↔
      (stripArtifacts (str "random name")).any (fun c => c != ';') = true) :=
  ⟨by decide, by decide,
    resolve_nonempty_characterization (str "random name") (by decide)
      (by decide)⟩

/-- C3 counterexample: on the pattern-free input `"a=b"` the code returns
`"a_b"` — it replaces `=` with an underscore — while the spec's sanitizer
(remove `;` and `=`) would return `"ab"`. -/
theorem resolve_fallback_counterexample :
    extractSuiteNameFromArtifact (str "a=b") = str "a_b" ∧
    specFallbackSanitize (str "a=b") = str "ab" ∧
    extractSuiteNameFromArtifact (str "a=b") ≠
      specFallbackSanitize (str "a=b") := by
  exact ⟨by decide, by decide, by decide⟩

/-- C3 (amended): when no naming pattern matches, resolution returns the
prefix-stripped input with every space and every `=` replaced by an
underscore and every `;` removed; consequently the result contains no `=`
character.  (The exception fallback at the end of
`_extract_suite_name_from_artifact` applies the same sanitization to the
unstripped name, but its body cannot raise, so that path is dead.) -/
theorem resolve_fallback_sanitization (s : List Char)
    (h1 : hasSub (str "BFT PyTest ") (stripArtifacts s) = false)
    (h2 : hasSub (str "PyTest test_report=") (stripArtifacts s) = false) :
    extractSuiteNameFromArtifact s = sanitizeRaw (stripArtifacts s) ∧
    '=' ∉ extractSuiteNameFromArtifact s := by
  have he : extractSuiteNameFromArtifact s = sanitizeRaw (stripArtifacts s) := by
    rw [extractSuiteNameFromArtifact]
    rw [splitAtSub_eq_none _ _ h1, splitAtSub_eq_none _ _ h2]
  refine ⟨he, ?_⟩
  rw [he]
  exact eq_not_mem_sanitizeRaw _

/-- Witness for C3's amended theorem at the input `"a=b"`. -/
theorem resolve_fallback_sanitization_witness :
    hasSub (str "BFT PyTest ") (stripArtifacts (str "a=b")) = false ∧
    hasSub (str "PyTest test_report=") (stripArtifacts (str "a=b")) = false ∧
    (extractSuiteNameFromArtifact (str "a=b") =
        sanitizeRaw (stripArtifacts (str "a=b")) ∧
      '=' ∉ extractSuiteNameFromArtifact (str "a=b")) :=
  ⟨by decide, by decide,
    resolve_fallback_sanitization (str "a=b") (by decide) (by decide)⟩

/-- C4: every suite record the structured-XML parser emits satisfies
`passed = total - failed - errors - skipped` (the derivation at line 276 of
`artifact_processor.py`), with no clamping — the concrete suite
`tests="5" failures="1" errors="0" skipped="1"` yields `passed = 3`, and the
inconsistent suite `tests="1" failures="1" skipped="2"` yields the negative
`passed = -2`, preserved in the parser's output. -/
theorem junit_passed_derived :
    (∀ stem parsed m nm r, parseJunitXml stem parsed = .ok m →
      dictGet m nm = some r →
      r.passed = r.total - r.failed - r.errors - r.skipped) ∧
    parseJunitXml (str "pytr") (.ok exSuite5101) = .ok [(str "s1", rec51)] ∧
    rec51.passed = 3 ∧
    parseJunitXml (str "pytr") (.ok exSuiteNeg) =
      .ok [(str "sneg", { name := str "sneg", total := 1, passed := -2,
                          failed := 1, skipped := 2, errors := 0 })] := by
  refine ⟨?_, by decide, by decide, by decide⟩
  intro stem parsed m nm r hp hr
  rw [parseJunitXml.eq_def] at hp
  cases parsed with
  | error u =>
    injection hp with hp
    subst hp
    simp [dictGet] at hr
  | ok root =>
    exact junit_fold_inv _ stem [] m
      (by intro nm' r' hg; simp [dictGet] at hg) hp nm r hr

/-- Witness for C4's universal part, instantiated at the concrete file
holding `exSuite5101`. -/
theorem junit_passed_derived_witness :
    parseJunitXml (str "pytr") (.ok exSuite5101) = .ok [(str "s1", rec51)] ∧
    dictGet [(str "s1", rec51)] (str "s1") = some rec51 ∧
    rec51.passed = rec51.total - rec51.failed - rec51.errors - rec51.skipped :=
  ⟨by decide, by decide,
    junit_passed_derived.1 (str "pytr") (.ok exSuite5101) [(str "s1", rec51)]
      (str "s1") rec51 (by decide) (by decide)⟩

/-- C5: a suite element whose derived `passed`, `failures` and `errors` are
all zero is skipped by the XML parser's per-suite loop — folding over a suite
list with such an element gives exactly the fold without it — and every key
of the orchestrator's output map comes from some file's successful parse, so
such a suite never appears in the orchestrator's output; concretely, a file
whose only suite is `tests="3" skipped="3" failures="0" errors="0"` produces
the empty map end to end. -/
theorem junit_nonmeaningful_dropped :
    (∀ stem acc e (t f er sk : Int) (d : ℚ),
      suiteCounters e = .ok (t, f, er, sk, d) →
      hasMeaningfulResults (t - f - er - sk) f er = false →
      ∀ pre post, List.foldlM (junitStep stem) acc (pre ++ e :: post) =
        List.foldlM (junitStep stem) acc (pre ++ post)) ∧
    (∀ files nm, nm ∈ dictKeys (processTestFiles files) →
      ∃ f, f ∈ files ∧ ∃ m, parseDispatch f = .ok m ∧ nm ∈ dictKeys m) ∧
    processTestFiles [exFileAllSkipped] = [] := by
  refine ⟨?_, ?_, by decide⟩
  · intro stem acc e t f er sk d hc hm pre post
    rw [List.foldlM_append, List.foldlM_append]
    cases hpre : List.foldlM (junitStep stem) acc pre with
    | error u => simp [Bind.bind, Except.bind]
    | ok b =>
      simp only [Bind.bind, Except.bind]
      rw [List.foldlM_cons, junitStep_skip stem b e t f er sk d hc hm]
      simp [Bind.bind, Except.bind]
  · intro files nm h
    rcases mem_dictKeys_processFold files [] nm h with h1 | h1
    · simp [dictKeys] at h1
    · exact h1

/-- Witness for C5 at the concrete all-skipped suite element. -/
theorem junit_nonmeaningful_dropped_witness :
    suiteCounters exSuiteAllSkipped = .ok (3, 0, 0, 3, 0) ∧
    hasMeaningfulResults (3 - 0 - 0 - 3) 0 0 = false ∧
    List.foldlM (junitStep (str "f")) ([] : SuiteMap)
        ([] ++ exSuiteAllSkipped :: []) =
      List.foldlM (junitStep (str "f")) ([] : SuiteMap) ([] ++ []) :=
  ⟨by decide, by decide,
    junit_nonmeaningful_dropped.1 (str "f") [] exSuiteAllSkipped 3 0 0 3 0
      (by decide) (by decide) [] []⟩

/-- C6: the meaningfulness filter returns true exactly when one of `passed`,
`failed`, `errors` is positive; in particular it rejects `(0,0,0)` and
accepts each unit vector. -/
theorem meaningful_iff (p f e : Int) (hp : 0 ≤ p) (hf : 0 ≤ f)
    (he : 0 ≤ e) :
    (hasMeaningfulResults p f e = true ↔ 0 < p ∨ 0 < f ∨ 0 < e) ∧
    hasMeaningfulResults 0 0 0 = false ∧
    hasMeaningfulResults 1 0 0 = true ∧
    hasMeaningfulResults 0 1 0 = true ∧
    hasMeaningfulResults 0 0 1 = true := by
  refine ⟨?_, by decide, by decide, by decide, by decide⟩
  simp only [hasMeaningfulResults, Bool.or_eq_true, decide_eq_true_eq]
  exact or_assoc

/-- Witness for C6 at `(1, 0, 0)`. -/
theorem meaningful_iff_witness :
    (0 : Int) ≤ 1 ∧
    ((hasMeaningfulResults 1 0 0 = true ↔
        (0 : Int) < 1 ∨ (0 : Int) < 0 ∨ (0 : Int) < 0) ∧
      hasMeaningfulResults 0 0 0 = false ∧
      hasMeaningfulResults 1 0 0 = true ∧
      hasMeaningfulResults 0 1 0 = true ∧
      hasMeaningfulResults 0 0 1 = true) :=
  ⟨by decide, meaningful_iff 1 0 0 (by decide) (by decide) (by decide)⟩

theorem foldl_processStep_inelig : ∀ (files : List AFile) (acc : SuiteMap),
    (∀ f ∈ files, isTestResultFile f.fname = false) →
    files.foldl processStep acc = acc := by
  intro files
  induction files with
  | nil => intro acc _; rfl
  | cons f fs ih =>
    intro acc hall
    rw [List.foldl_cons,
      processStep_of_inelig f (hall f (List.mem_cons_self f fs)) acc]
    exact ih acc (fun g hg => hall g (List.mem_cons_of_mem f hg))

/-- C7: the eligibility gate accepts a file exactly when its lowercased
extension is one of the five supported ones and its lowercased filename
contains one of the ten test patterns as a substring; `summary.xml` is
rejected (and contributes no suites whatever its content), while
`pytest_report.xml` is accepted. -/
theorem eligibility_gate_iff :
    (∀ fname : List Char, isTestResultFile fname = true ↔
      (lowerStr (pySuffix fname) ∈ supportedFormats ∧
        ∃ p, p ∈ testPatterns ∧ ∃ l r, lowerStr fname = l ++ p ++ r)) ∧
    isTestResultFile (str "summary.xml") = false ∧
    isTestResultFile (str "pytest_report.xml") = true ∧
    (∀ c, processTestFiles [⟨str "summary.xml", c⟩] = []) := by
  refine ⟨?_, by decide, by decide, ?_⟩
  · intro fname
    rw [isTestResultFile]
    by_cases hc : supportedFormats.contains (lowerStr (pySuffix fname)) = true
    · rw [hc]
      simp only [Bool.not_true, Bool.false_eq_true, if_false]
      have hmem := (contains_iff_mem_ls _ _).mp hc
      constructor
      · intro hx
        refine ⟨hmem, ?_⟩
        rcases List.any_eq_true.mp hx with ⟨p, hp, hsub⟩
        exact ⟨p, hp, (hasSub_iff p _).mp hsub⟩
      · rintro ⟨_, p, hp, l, r, hde⟩
        exact List.any_eq_true.mpr ⟨p, hp, (hasSub_iff p _).mpr ⟨l, r, hde⟩⟩
    · rw [Bool.not_eq_true] at hc
      rw [hc]
      simp only [Bool.not_false, if_true]
      constructor
      · intro hx; exact absurd hx (by simp)
      · rintro ⟨hmem, _⟩
        have := (contains_iff_mem_ls _ _).mpr hmem
        rw [hc] at this
        cases this
  · intro c
    exact foldl_processStep_inelig [⟨str "summary.xml", c⟩] []
      (by intro f hf
          simp only [List.mem_singleton] at hf
          subst hf
          show isTestResultFile (str "summary.xml") = false
          decide)

/-- C8: the text/log parser includes its suite exactly when the summed
first-match counts give `total > 0` — no meaningfulness filter; a log whose
only count is `3 skipped` yields a suite, while the same counts presented to
the XML, JSON and HTML parsers are dropped by their meaningfulness filters. -/
theorem text_included_iff_total_positive :
    (∀ stem content,
      parseTextReport stem content ≠ [] ↔ textTotalOf content > 0) ∧
    parseTextReport (str "run") (str "3 skipped") =
      [(str "run",
        { name := str "run", total := 3, skipped := 3, tests := [] })] ∧
    parseJunitXml (str "run") (.ok exSuiteAllSkipped) = .ok [] ∧
    parseJsonReport (str "run") (.ok exJsonAllSkipped) = [] ∧
    parseHtmlReportFb (str "run") (str "3 skipped") = [] := by
  refine ⟨?_, by decide, by decide, by decide, by decide⟩
  intro stem content
  simp only [parseTextReport]
  by_cases h : textTotalOf content > 0
  · rw [if_pos h]
    simp [h]
  · rw [if_neg h]
    simp [h]

/-- C9: the orchestrator isolates per-file failures — a file whose parse
raises contributes nothing and the remaining files are processed as if it
were absent; per-file maps are folded by merging on an existing suite name
and appending otherwise; a batch with no eligible file (in particular the
empty batch) returns the empty map as an ordinary value. -/
theorem orchestrator_fault_isolation :
    (∀ pre post (f : AFile), parseDispatch f = .error () →
      processTestFiles (pre ++ f :: post) = processTestFiles (pre ++ post)) ∧
    (∀ (acc : SuiteMap) nm (r old : TestSuiteResult),
      dictGet acc nm = some old →
      dictGet (mergeIntoAcc acc [(nm, r)]) nm =
        some (mergeSuiteResults old r)) ∧
    (∀ (acc : SuiteMap) nm (r : TestSuiteResult), dictGet acc nm = none →
      mergeIntoAcc acc [(nm, r)] = acc ++ [(nm, r)]) ∧
    (∀ files, (∀ f ∈ files, isTestResultFile f.fname = false) →
      processTestFiles files = []) ∧
    processTestFiles [] = [] := by
  refine ⟨?_, ?_, ?_, ?_, rfl⟩
  · intro pre post f hf
    rw [processTestFiles, processTestFiles, List.foldl_append,
      List.foldl_append, List.foldl_cons, processStep_of_error f hf]
  · intro acc nm r old h
    rw [mergeIntoAcc]
    simp only [List.foldl_cons, List.foldl_nil]
    simp only [mergeStepOne, h]
    exact dictGet_dictSet_self acc nm _
  · intro acc nm r h
    rw [mergeIntoAcc]
    simp only [List.foldl_cons, List.foldl_nil]
    simp only [mergeStepOne, h]
    exact dictSet_append acc nm r h
  · intro files hall
    exact foldl_processStep_inelig files [] hall

/-- Witness for C9: a file whose XML attributes raise `ValueError`
contributes nothing, and the merger conjuncts at concrete records. -/
theorem orchestrator_fault_isolation_witness :
    parseDispatch exBadFile = .error () ∧
    processTestFiles ([] ++ exBadFile :: []) = processTestFiles ([] ++ []) ∧
    dictGet [(str "suiteA", rA)] (str "suiteA") = some rA ∧
    dictGet (mergeIntoAcc [(str "suiteA", rA)] [(str "suiteA", rB)])
        (str "suiteA") = some (mergeSuiteResults rA rB) ∧
    dictGet [] (str "suiteB") = none ∧
    mergeIntoAcc [] [(str "suiteB", rB)] = [] ++ [(str "suiteB", rB)] :=
  ⟨by decide,
    orchestrator_fault_isolation.1 [] [] exBadFile (by decide),
    by decide,
    orchestrator_fault_isolation.2.1 [(str "suiteA", rA)] (str "suiteA") rB rA
      (by decide),
    by decide,
    orchestrator_fault_isolation.2.2.1 [] (str "suiteB") rB (by decide)⟩

/-- C10: the `FAILED <name> -` records extracted by the text parser never
feed its counters: whenever none of the four summary patterns matches,
`total` is 0 and the parser returns the empty map even though `FAILED` lines
were extracted, discarding them. -/
theorem text_failed_lines_not_counted (stem content : List Char)
    (hfl : findFailed content ≠ [])
    (h1 : searchCount (str " passed") content = none)
    (h2 : searchCount (str " failed") content = none)
    (h3 : searchCount (str " skipped") content = none)
    (h4 : searchCount (str " error") content = none) :
    textTotalOf content = 0 ∧ parseTextReport stem content = [] := by
  have ht : textTotalOf content = 0 := by
    simp [textTotalOf, textPassedOf, textFailedOf, textSkippedOf,
      textErrorsOf, h1, h2, h3, h4]
  refine ⟨ht, ?_⟩
  simp only [parseTextReport]
  rw [if_neg (by rw [ht]; exact lt_irrefl 0)]

/-- Witness for C10 at a log holding one `FAILED` line and no summary. -/
theorem text_failed_lines_not_counted_witness :
    findFailed (str "FAILED test_x - boom") ≠ [] ∧
    searchCount (str " passed") (str "FAILED test_x - boom") = none ∧
    searchCount (str " failed") (str "FAILED test_x - boom") = none ∧
    searchCount (str " skipped") (str "FAILED test_x - boom") = none ∧
    searchCount (str " error") (str "FAILED test_x - boom") = none ∧
    (textTotalOf (str "FAILED test_x - boom") = 0 ∧
      parseTextReport (str "log") (str "FAILED test_x - boom") = []) :=
  ⟨by decide, by decide, by decide, by decide, by decide,
    text_failed_lines_not_counted (str "log") (str "FAILED test_x - boom")
      (by decide) (by decide) (by decide) (by decide) (by decide)⟩
